import Mathlib

/-!
Verification of the control-plane transport core of the openflow repository:
the Netlink message codec and socket layer of src/lib/netlink.c and the TCP
vconn transport of src/lib/vconn-tcp.c, together with the allocation
wrappers of src/unnamed/part_000.

Buffers are modelled as lists of byte values.  A buffer of the source is a
growable byte region; only its payload span is observable by the code under
verification, so a plain list suffices.  Machine integers are modelled as
Nat with explicit reduction modulo a power of two at the points where the
source stores them into fixed-width fields.
-/

namespace OpenFlow

/-! Constants from the system headers linux/netlink.h, linux/genetlink.h and
errno.h as used by the source (these headers are external to the repo). -/

def NLMSG_HDRLEN : Nat := 16

def GENL_HDRLEN : Nat := 4

def NLA_HDRLEN : Nat := 4

def NLMSG_ERROR : Nat := 2

def NLM_F_ACK : Nat := 4

def EOF_CODE : Int := -1

def EAGAIN : Nat := 11

def ENOMEM : Nat := 12

def EINVAL : Nat := 22

def EPROTO : Nat := 71

def ENOBUFS : Nat := 105

/-- NLA_ALIGN and NLMSG_ALIGN of the Linux headers: round up to a multiple
of 4. -/
def nlaAlign (x : Nat) : Nat := (x + 3) / 4 * 4

/-! Little-endian byte codec.  Netlink fields are stored in host byte order;
the host is little-endian (x86), so a k-byte field holding v is the list of
the base-256 digits of v, least significant first. -/

/-- Encoding of the low n bytes of v, least significant byte first. -/
def leBytes : Nat → Nat → List Nat
  | 0, _ => []
  | n + 1, v => (v % 256) :: leBytes n (v / 256)

/-- Value denoted by a little-endian byte list. -/
def decodeLe : List Nat → Nat
  | [] => 0
  | b :: bs => b + 256 * decodeLe bs

/-- Reading the n-byte little-endian field at byte offset off of msg. -/
def readLe (msg : List Nat) (off n : Nat) : Nat :=
  decodeLe ((msg.drop off).take n)

/-! Netlink PID allocation, from src/lib/netlink.c lines 872-908. -/

def SOCKET_BITS : Nat := 10

def MAX_SOCKETS : Nat := 1 <<< SOCKET_BITS

def PROCESS_BITS : Nat := 32 - SOCKET_BITS

def PROCESS_MASK : Nat := (1 <<< PROCESS_BITS) - 1

/-- Model of alloc_pid (netlink.c lines 885-899).  The bitmap avail maps a
slot index to true when the slot is in use.  A linear scan finds the first
free slot; the returned PID combines the masked Unix pid with the slot
index shifted into the high bits.  Returns none when every slot is taken,
which the source reports as ENOBUFS. -/
def alloc_pid (unixPid : Nat) (avail : Nat → Bool) : Option (Nat × (Nat → Bool)) :=
  match (List.range MAX_SOCKETS).find? (fun i => !avail i) with
  | some i =>
      some (((unixPid &&& PROCESS_MASK) ||| (i <<< PROCESS_BITS)),
            fun j => if j = i then true else avail j)
  | none => none

/-- Model of free_pid (netlink.c lines 901-908): clear the bitmap bit of the
slot held in the high bits of pid. -/
def free_pid (pid : Nat) (avail : Nat → Bool) : Nat → Bool :=
  fun j => if j = pid >>> PROCESS_BITS then false else avail j

/-! Allocation wrappers, from src/unnamed/part_000. -/

/-- Outcome of an allocation through the wrappers: either memory is
obtained or the process is aborted.  No error-code outcome exists. -/
inductive AllocResult where
  | ok
  | aborted
deriving DecidableEq

/-- Model of xmalloc (src/unnamed/part_000 lines 46-54): when the
underlying malloc fails, out_of_memory calls fatal, which exits the
process; otherwise memory is returned.  The Boolean argument is the oracle
for whether malloc succeeds. -/
def xmalloc (mallocOk : Bool) : AllocResult :=
  if mallocOk then AllocResult.ok else AllocResult.aborted

/-! Netlink socket creation, from src/lib/netlink.c lines 74-168.  The
syscall layer is abstracted by an oracle recording which calls succeed and
the errno value observed on failure. -/

structure CreateOracle where
  mallocOk : Bool
  socketOk : Bool
  socketErrno : Nat
  sndbufOk : Bool
  sndbufErrno : Nat
  rcvbufOk : Bool
  rcvbufErrno : Nat
  bindOk : Bool
  bindErrno : Nat
  connectOk : Bool
  connectErrno : Nat
  membershipOk : Bool
  membershipErrno : Nat

/-- Translation of the goto error epilogue of nl_sock_create: a zero errno
is coerced to EINVAL (netlink.c lines 156-162). -/
def errnoOr (e : Nat) : Nat := if e = 0 then EINVAL else e

/-- Model of nl_sock_create (netlink.c lines 74-168).  Returns the errno
value of the failing step, or the allocated pid together with the updated
slot bitmap.  The first step allocates the nl_sock structure with plain
malloc and returns ENOMEM when it fails. -/
def nl_sock_create (o : CreateOracle) (multicastGroup : Nat) (soSndbuf soRcvbuf : Nat)
    (unixPid : Nat) (avail : Nat → Bool) : Except Nat (Nat × (Nat → Bool)) :=
  if !o.mallocOk then Except.error ENOMEM
  else if !o.socketOk then Except.error (errnoOr o.socketErrno)
  else match alloc_pid unixPid avail with
    | none => Except.error ENOBUFS
    | some (pid, avail2) =>
      if soSndbuf ≠ 0 && !o.sndbufOk then Except.error (errnoOr o.sndbufErrno)
      else if soRcvbuf ≠ 0 && !o.rcvbufOk then Except.error (errnoOr o.rcvbufErrno)
      else if !o.bindOk then Except.error (errnoOr o.bindErrno)
      else if !o.connectOk then Except.error (errnoOr o.connectErrno)
      else if multicastGroup > 32 && !o.membershipOk then
        Except.error (errnoOr o.membershipErrno)
      else Except.ok (pid, avail2)

/-! TCP vconn transport, from src/lib/vconn-tcp.c.  The stream socket is
modelled by the list of bytes the peer has made available for reading and,
on the send side, by the byte capacity the kernel will accept in one write.
The OpenFlow header is 8 bytes; its third and fourth bytes carry the total
frame length in network byte order. -/

def sizeofOfpHeader : Nat := 8

/-- Reading the 16-bit network-order length field at byte offset off,
as ntohs does on a little-endian host. -/
def readBe16 (l : List Nat) (off : Nat) : Nat :=
  l.getD off 0 * 256 + l.getD (off + 1) 0

/-- Result of one tcp_recv call: a complete frame whose ownership moves to
the caller, or an error code.  EOF_CODE is the negative EOF constant the
source returns on a clean close with an empty buffer. -/
inductive TcpRecvResult where
  | ok (frame : List Nat)
  | err (e : Int)
deriving DecidableEq

/-- Loop body of tcp_recv (vconn-tcp.c lines 193-224), one iteration per
fuel unit; the goto again edge is the recursive call.  It takes the current
receive-assembly buffer rx and the available stream bytes and returns the
call result, the new assembly slot (none once a frame is handed over) and
the remaining stream.  A read of n bytes yields min n stream.length bytes;
a read of 0 bytes returns 0; a read with no data available fails with
EAGAIN (the socket is non-blocking and the peer has not closed).  The
recursive call is taken only when a read completes the 8 header bytes
exactly, so at most two iterations run and fuel 3 is never exhausted. -/
def tcpRecvLoop : Nat → List Nat → List Nat → TcpRecvResult × Option (List Nat) × List Nat
  | 0, rx, stream => (TcpRecvResult.err (EPROTO : Nat), some rx, stream)
  | fuel + 1, rx, stream =>
    let want : Nat :=
      if rx.length < sizeofOfpHeader then sizeofOfpHeader - rx.length
      else readBe16 rx 2 - rx.length
    if ¬ rx.length < sizeofOfpHeader ∧ readBe16 rx 2 < sizeofOfpHeader then
      (TcpRecvResult.err (EPROTO : Nat), some rx, stream)
    else if want = 0 then
      (TcpRecvResult.err (if rx.length = 0 then EOF_CODE else (EPROTO : Nat)),
       some rx, stream)
    else if stream.isEmpty then
      (TcpRecvResult.err (EAGAIN : Nat), some rx, stream)
    else
      let got := min want stream.length
      let rx2 := rx ++ stream.take got
      let stream2 := stream.drop got
      if got = want then
        if rx2.length > sizeofOfpHeader then
          (TcpRecvResult.ok rx2, none, stream2)
        else
          tcpRecvLoop fuel rx2 stream2
      else
        (TcpRecvResult.err (EAGAIN : Nat), some rx2, stream2)

/-- State of the receive side of an active TCP vconn: the nullable
receive-assembly buffer and the bytes delivered by the peer that have not
been read yet. -/
structure TcpRxState where
  rxbuf : Option (List Nat)
  stream : List Nat
deriving DecidableEq

/-- Model of tcp_recv (vconn-tcp.c lines 180-225).  A null rxbuf slot is
replaced by a fresh empty buffer, then the read loop runs. -/
def tcp_recv (st : TcpRxState) : TcpRecvResult × TcpRxState :=
  let rx := st.rxbuf.getD []
  match tcpRecvLoop 3 rx st.stream with
  | (res, slot, stream2) => (res, TcpRxState.mk slot stream2)

/-! Send side. -/

/-- Outcome of one write syscall on the non-blocking stream socket:
either n bytes were written, or the call would block, or it failed with an
errno value. -/
inductive WriteOutcome where
  | wrote (n : Nat)
  | wouldBlock
  | fail (e : Nat)
deriving DecidableEq

/-- State of the send side of an active TCP vconn: the single staging slot
holding an unfinished outgoing message, and the bytes emitted on the wire
so far. -/
structure TcpTxState where
  txbuf : Option (List Nat)
  wire : List Nat
deriving DecidableEq

/-- Model of tcp_send (vconn-tcp.c lines 227-250).  The write outcome w is
the behaviour of the one write call on buf; a sound outcome never claims
more bytes than buf holds.  On full completion the buffer is deleted; on a
short write the buffer is pulled past the written bytes and staged; on a
would-block outcome it is staged whole; any other failure is returned with
the wire untouched. -/
def tcp_send (st : TcpTxState) (buf : List Nat) (w : WriteOutcome) : Nat × TcpTxState :=
  match st.txbuf with
  | some _ => (EAGAIN, st)
  | none =>
    match w with
    | WriteOutcome.wrote n =>
      if n = buf.length then (0, TcpTxState.mk none (st.wire ++ buf))
      else (0, TcpTxState.mk (some (buf.drop n)) (st.wire ++ buf.take n))
    | WriteOutcome.wouldBlock => (0, TcpTxState.mk (some buf) st.wire)
    | WriteOutcome.fail e => (e, st)

/-- Model of the staged-send flush of tcp_postpoll (vconn-tcp.c lines
156-178).  When POLLOUT is set and a staged buffer exists, one write is
attempted; written bytes are pulled off the staged buffer and the slot is
cleared once it is empty.  The Boolean result mirrors whether POLLERR was
raised in revents. -/
def tcp_postpoll (st : TcpTxState) (pollout : Bool) (w : WriteOutcome) :
    TcpTxState × Bool :=
  match st.txbuf, pollout with
  | some b, true =>
    (match w with
     | WriteOutcome.wrote n =>
       let b2 := b.drop n
       if n > 0 then
         if b2.length = 0 then (TcpTxState.mk none (st.wire ++ b.take n), false)
         else (TcpTxState.mk (some b2) (st.wire ++ b.take n), false)
       else (TcpTxState.mk (some b) st.wire, false)
     | WriteOutcome.wouldBlock => (TcpTxState.mk (some b) st.wire, false)
     | WriteOutcome.fail _ => (TcpTxState.mk (some b) st.wire, true))
  | _, _ => (st, false)

/-! Netlink message construction, from src/lib/netlink.c lines 429-612.
A message under construction is its payload byte list; the put operations
append at the tail, exactly as buffer_put_uninit does on the byte span of
the buffer (the buffer module is not part of src; its append semantics is
modelled from the spec, section 4.A). -/

/-- Model of nl_msg_put / nl_msg_put_uninit (netlink.c lines 505-526):
append the data plus zero padding up to the next 4-byte boundary. -/
def nl_msg_put (msg : List Nat) (data : List Nat) : List Nat :=
  msg ++ data ++ List.replicate (nlaAlign data.length - data.length) 0

/-- Byte image of a struct nlattr header: 16-bit length then 16-bit type,
host byte order. -/
def nlattrHeader (len ty : Nat) : List Nat :=
  leBytes 2 len ++ leBytes 2 ty

/-- Model of nl_msg_put_unspec / nl_msg_put_unspec_uninit (netlink.c lines
532-552): append an attribute header whose nla_len field holds the
unaligned total length, then the payload, then padding. -/
def nl_msg_put_unspec (msg : List Nat) (ty : Nat) (data : List Nat) : List Nat :=
  nl_msg_put msg (nlattrHeader (NLA_HDRLEN + data.length) ty ++ data)

/-- Model of nl_msg_put_u8 (netlink.c lines 565-569). -/
def nl_msg_put_u8 (msg : List Nat) (ty v : Nat) : List Nat :=
  nl_msg_put_unspec msg ty (leBytes 1 v)

/-- Model of nl_msg_put_u16 (netlink.c lines 573-577). -/
def nl_msg_put_u16 (msg : List Nat) (ty v : Nat) : List Nat :=
  nl_msg_put_unspec msg ty (leBytes 2 v)

/-- Model of nl_msg_put_u32 (netlink.c lines 581-585). -/
def nl_msg_put_u32 (msg : List Nat) (ty v : Nat) : List Nat :=
  nl_msg_put_unspec msg ty (leBytes 4 v)

/-- Model of nl_msg_put_u64 (netlink.c lines 589-593). -/
def nl_msg_put_u64 (msg : List Nat) (ty v : Nat) : List Nat :=
  nl_msg_put_unspec msg ty (leBytes 8 v)

/-- Byte image of the 16-byte nlmsghdr written by nl_msg_put_nlmsghdr
(netlink.c lines 453-468): length field 0 until finalization, then type,
flags, sequence number and pid. -/
def nlmsghdrBytes (ty flags seq pid : Nat) : List Nat :=
  leBytes 4 0 ++ leBytes 2 ty ++ leBytes 2 flags ++ leBytes 4 seq ++ leBytes 4 pid

/-- Model of nl_msg_put_nlmsghdr on an empty message (the source asserts
msg.size == 0). -/
def nl_msg_put_nlmsghdr (ty flags seq pid : Nat) : List Nat :=
  nl_msg_put [] (nlmsghdrBytes ty flags seq pid)

/-- Model of nl_msg_put_genlmsghdr (netlink.c lines 489-503): an nlmsghdr
followed by the 4-byte genlmsghdr carrying cmd, version and a zero
reserved field. -/
def nl_msg_put_genlmsghdr (family flags seq pid cmd version : Nat) : List Nat :=
  nl_msg_put (nl_msg_put_nlmsghdr family flags seq pid)
    [cmd % 256, version % 256, 0, 0]

/-! Build traces.  Claim C5 quantifies over every message built with the
put operations and every attribute inserted into it, so the build is
reified as a list of operations; unspec covers all the typed attribute
helpers, since each of them calls nl_msg_put_unspec. -/

inductive BuildOp where
  | hdr (ty flags seq pid : Nat)
  | genl (cmd version : Nat)
  | raw (data : List Nat)
  | unspec (ty : Nat) (data : List Nat)

/-- Record of one attribute insertion: where the attribute and its payload
begin, the value stored in the nla_len field, and the payload length. -/
structure AttrRec where
  attrOffset : Nat
  payloadOffset : Nat
  nlaLen : Nat
  payloadLen : Nat

/-- Condition of the assert in nl_msg_put_unspec_uninit (netlink.c line
537): the aligned total attribute length must fit the 16-bit nla_len
field. -/
def opAssertOk : BuildOp → Bool
  | BuildOp.unspec _ data => decide (nlaAlign (NLA_HDRLEN + data.length) ≤ 65535)
  | _ => true

/-- One build step: apply the operation to the message and record the
inserted attribute if the operation is an attribute insertion. -/
def buildStep : List Nat × List AttrRec → BuildOp → List Nat × List AttrRec
  | (msg, recs), BuildOp.hdr ty flags seq pid =>
      (nl_msg_put msg (nlmsghdrBytes ty flags seq pid), recs)
  | (msg, recs), BuildOp.genl cmd version =>
      (nl_msg_put msg [cmd % 256, version % 256, 0, 0], recs)
  | (msg, recs), BuildOp.raw data => (nl_msg_put msg data, recs)
  | (msg, recs), BuildOp.unspec ty data =>
      (nl_msg_put_unspec msg ty data,
       recs ++ [AttrRec.mk msg.length (msg.length + NLA_HDRLEN)
                  (NLA_HDRLEN + data.length) data.length])

/-- Message and attribute records produced by a build trace starting from
an empty buffer. -/
def build (ops : List BuildOp) : List Nat × List AttrRec :=
  ops.foldl buildStep ([], [])

/-! Attribute readout, from src/lib/netlink.c lines 614-695.  An attribute
is addressed by the byte offset of its header inside the message. -/

/-- Model of nl_attr_get_size: payload length from the nla_len field. -/
def nl_attr_get_size (msg : List Nat) (off : Nat) : Nat :=
  readLe msg off 2 - NLA_HDRLEN

/-- Model of the NL_ATTR_GET_AS readers nl_attr_get_u8 .. nl_attr_get_u64:
read the k-byte host-order value at the start of the payload. -/
def nl_attr_get_uX (k : Nat) (msg : List Nat) (off : Nat) : Nat :=
  readLe msg (off + NLA_HDRLEN) k

/-! Attribute policy and schema-driven parse, from src/lib/netlink.c lines
697-801. -/

inductive NlAttrType where
  | noAttr
  | u8
  | u16
  | u32
  | u64
  | string
  | flag
  | nested
  | unspec
deriving DecidableEq

/-- Default minimum payload length per attribute kind (attr_len_range,
netlink.c lines 698-707, first column). -/
def defaultMinLen : NlAttrType → Nat
  | NlAttrType.u8 => 1
  | NlAttrType.u16 => 2
  | NlAttrType.u32 => 4
  | NlAttrType.u64 => 8
  | NlAttrType.string => 1
  | NlAttrType.nested => NLMSG_HDRLEN
  | _ => 0

/-- Default maximum payload length per attribute kind (attr_len_range,
second column); none models SIZE_MAX. -/
def defaultMaxLen : NlAttrType → Option Nat
  | NlAttrType.u8 => some 1
  | NlAttrType.u16 => some 2
  | NlAttrType.u32 => some 4
  | NlAttrType.u64 => some 8
  | _ => none

/-- One entry of a policy array (struct nl_policy): kind, optional min and
max payload length overrides (0 means use the default), optional flag. -/
structure NlPolicy where
  ptype : NlAttrType
  minLenOverride : Nat
  maxLenOverride : Nat
  optionalAttr : Bool
deriving DecidableEq

/-- Policy entry with kind t and no overrides. -/
def policyOf (t : NlAttrType) : NlPolicy := NlPolicy.mk t 0 0 false

/-- Effective minimum payload length of a policy entry (netlink.c line
767). -/
def polMinLen (pol : NlPolicy) : Nat :=
  if pol.minLenOverride ≠ 0 then pol.minLenOverride else defaultMinLen pol.ptype

/-- Effective maximum payload length of a policy entry (netlink.c line
768); none models SIZE_MAX. -/
def polMaxLen (pol : NlPolicy) : Option Nat :=
  if pol.maxLenOverride ≠ 0 then some pol.maxLenOverride else defaultMaxLen pol.ptype

/-- Whether the payload length len violates the allowed range. -/
def lenOutOfRange (pol : NlPolicy) (len : Nat) : Bool :=
  len < polMinLen pol ||
    (match polMaxLen pol with
     | some m => len > m
     | none => false)

/-- Whether a policy entry counts toward n_required (netlink.c lines
726-729): present kind, not a flag, not optional. -/
def polRequired (pol : NlPolicy) : Bool :=
  pol.ptype ≠ NlAttrType.noAttr && pol.ptype ≠ NlAttrType.flag && !pol.optionalAttr

/-- String content check of the parse (netlink.c lines 774-785): the last
payload byte must be NUL and no earlier payload byte may be NUL. -/
def stringCheckFails (msg : List Nat) (p nlaLen len : Nat) : Bool :=
  msg.getD (p + nlaLen - 1) 0 ≠ 0 ||
    ((msg.drop (p + NLA_HDRLEN)).take (len - 1)).contains 0

/-- Attribute walk of nl_policy_parse (netlink.c lines 740-795).  p is the
byte offset of the next attribute, attrs maps each attribute type below
the policy length to the offset of the attribute stored for it, and
nRequired counts required slots still unfilled.  The C locals nla, len,
aligned_len and type are inlined: readLe msg p 2 is nla_len, the payload
length len is readLe msg p 2 - NLA_HDRLEN, and readLe msg (p + 2) 2 is
nla_type.  Each iteration consumes one fuel unit; every iteration that
continues advances p by at least NLA_HDRLEN after the length checks, so a
fuel of msg.length is never exhausted. -/
def parseAttrsLoop (msg : List Nat) (policy : List NlPolicy) :
    Nat → Nat → List (Option Nat) → Nat → Option (List (Option Nat))
  | 0, _, _, _ => none
  | fuel + 1, p, attrs, nRequired =>
    if p < msg.length then
      if readLe msg p 2 < NLA_HDRLEN then none
      else if nlaAlign (readLe msg p 2 - NLA_HDRLEN) > msg.length - p then none
      else if readLe msg (p + 2) 2 < policy.length then
        (if (policy.getD (readLe msg (p + 2) 2) (policyOf NlAttrType.noAttr)).ptype =
              NlAttrType.noAttr then
          parseAttrsLoop msg policy fuel (p + nlaAlign (readLe msg p 2)) attrs nRequired
        else if lenOutOfRange
              (policy.getD (readLe msg (p + 2) 2) (policyOf NlAttrType.noAttr))
              (readLe msg p 2 - NLA_HDRLEN) then none
        else if (policy.getD (readLe msg (p + 2) 2) (policyOf NlAttrType.noAttr)).ptype =
                NlAttrType.string &&
              stringCheckFails msg p (readLe msg p 2) (readLe msg p 2 - NLA_HDRLEN) then
          none
        else
          parseAttrsLoop msg policy fuel (p + nlaAlign (readLe msg p 2))
            (attrs.set (readLe msg (p + 2) 2) (some p))
            (if !(policy.getD (readLe msg (p + 2) 2)
                    (policyOf NlAttrType.noAttr)).optionalAttr &&
                attrs.getD (readLe msg (p + 2) 2) none = none then nRequired - 1
             else nRequired))
      else
        parseAttrsLoop msg policy fuel (p + nlaAlign (readLe msg p 2)) attrs nRequired
    else
      if nRequired ≠ 0 then none else some attrs

/-- Model of nl_policy_parse (netlink.c lines 713-801).  Returns none on
failure; on success, the attrs array as a list mapping each attribute type
to the offset of the attribute stored for it.  The walk starts just past
the nlmsghdr and genlmsghdr, which buffer_at requires to be present. -/
def nl_policy_parse (msg : List Nat) (policy : List NlPolicy) :
    Option (List (Option Nat)) :=
  if NLMSG_HDRLEN + GENL_HDRLEN ≤ msg.length then
    parseAttrsLoop msg policy msg.length (NLMSG_HDRLEN + GENL_HDRLEN)
      (List.replicate policy.length none) (policy.countP polRequired)
  else none

/-! Error-message decoding and the reliable transact protocol, from
src/lib/netlink.c lines 295-427. -/

/-- Size of struct nlmsgerr: the 4-byte signed error code followed by the
echoed 16-byte nlmsghdr. -/
def sizeofNlmsgerr : Nat := 20

/-- Model of nl_msg_nlmsgerr (netlink.c lines 408-427).  Returns none when
the message type is not NLMSG_ERROR; otherwise the errno code stored for
the caller: EPROTO when the message is too short for a struct nlmsgerr or
the code lies outside the half-open range from INT_MIN exclusive to 0
inclusive, else the negated error field (0 for an ACK).  The error field
is a signed 32-bit value read at offset NLMSG_HDRLEN. -/
def nl_msg_nlmsgerr (msg : List Nat) : Option Nat :=
  if readLe msg 4 2 = NLMSG_ERROR then
    some (if NLMSG_HDRLEN + sizeofNlmsgerr ≤ msg.length then
            let raw := readLe msg NLMSG_HDRLEN 4
            let e : Int := if raw < 2 ^ 31 then (raw : Int) else (raw : Int) - 2 ^ 32
            if e ≤ 0 ∧ -(2 ^ 31) < e then (-e).toNat else EPROTO
          else EPROTO)
  else none

/-- Sequence number field of an nlmsghdr, at byte offset 8. -/
def nlmsgSeq (msg : List Nat) : Nat := readLe msg 8 4

/-- Request with the NLM_F_ACK bit forced into its 16-bit flags field at
byte offset 6 (netlink.c line 339). -/
def withAck (req : List Nat) : List Nat :=
  let flags := readLe req 6 2 ||| NLM_F_ACK
  (req.set 6 (flags % 256)).set 7 (flags / 256 % 256)

/-- Outcome of one blocking nl_sock_recv call during a transact: an errno
failure or a received message. -/
inductive RecvOutcome where
  | fail (e : Nat)
  | ok (buf : List Nat)
deriving DecidableEq

/-- Whether an outcome is the ENOBUFS failure that triggers a resend. -/
def isEnobufs : RecvOutcome → Bool
  | RecvOutcome.fail e => e = ENOBUFS
  | RecvOutcome.ok _ => false

/-- Result of a transact: the returned errno (0 for success), the reply
buffer handed to the caller, the messages sent on the socket, the receive
outcomes consumed, and the reply that terminated the loop (also set when
the reply was decoded as NLMSG_ERROR rather than handed over). -/
structure TransactResult where
  ret : Nat
  reply : Option (List Nat)
  sent : List (List Nat)
  consumed : List RecvOutcome
  accepted : Option (List Nat)
deriving DecidableEq

/-- Loop of nl_sock_transact (netlink.c lines 341-372) over the trace of
receive outcomes.  sm is the message sent by each send (the ACK-flagged
request); the send and recv labels of the source are the two recursion
modes: an ENOBUFS failure records another send of sm and receives again, a
reply with a stale sequence number is discarded and received again, and
any other outcome terminates.  An exhausted trace (none) is a transact
still blocked in nl_sock_recv. -/
def transactLoop (reqSeq : Nat) (sm : List Nat) :
    List RecvOutcome → Option TransactResult
  | [] => none
  | RecvOutcome.fail e :: rest =>
    if e = ENOBUFS then
      (transactLoop reqSeq sm rest).map
        (fun r => TransactResult.mk r.ret r.reply (sm :: r.sent)
          (RecvOutcome.fail e :: r.consumed) r.accepted)
    else
      some (TransactResult.mk e none [] [RecvOutcome.fail e] none)
  | RecvOutcome.ok buf :: rest =>
    if nlmsgSeq buf ≠ reqSeq then
      (transactLoop reqSeq sm rest).map
        (fun r => TransactResult.mk r.ret r.reply r.sent
          (RecvOutcome.ok buf :: r.consumed) r.accepted)
    else
      match nl_msg_nlmsgerr buf with
      | some code =>
        some (TransactResult.mk (if code ≠ EAGAIN then code else EPROTO) none []
          [RecvOutcome.ok buf] (some buf))
      | none =>
        some (TransactResult.mk 0 (some buf) [] [RecvOutcome.ok buf] (some buf))

/-- Model of nl_sock_transact (netlink.c lines 326-373).  The expected
sequence number is read from the request before the NLM_F_ACK bit is set;
the initial send is prepended to the sends recorded by the loop. -/
def nl_sock_transact (req : List Nat) (events : List RecvOutcome) :
    Option TransactResult :=
  let sm := withAck req
  (transactLoop (nlmsgSeq req) sm events).map
    (fun r => TransactResult.mk r.ret r.reply (sm :: r.sent) r.consumed r.accepted)

/-- Invariant of one recorded attribute insertion with respect to the
message bytes: the attribute and its payload begin at 4-byte-aligned
offsets, the payload starts right after the 4-byte attribute header, the
nla_len field (also as stored in the message bytes) holds the unaligned
total length while the attribute occupies the aligned span, and every
padding byte between the payload end and the aligned end is zero. -/
def RecOk (msg : List Nat) (rec : AttrRec) : Prop :=
  rec.attrOffset % 4 = 0 ∧
  rec.payloadOffset = rec.attrOffset + NLA_HDRLEN ∧
  rec.payloadOffset % 4 = 0 ∧
  rec.nlaLen = NLA_HDRLEN + rec.payloadLen ∧
  rec.nlaLen ≤ 65535 ∧
  rec.attrOffset + nlaAlign rec.nlaLen ≤ msg.length ∧
  readLe msg rec.attrOffset 2 = rec.nlaLen ∧
  ∀ i, rec.payloadOffset + rec.payloadLen ≤ i →
    i < rec.attrOffset + nlaAlign rec.nlaLen → msg.getD i 1 = 0

/-! Theorems.  Helper lemmas come first, then one theorem per claim with
its witness or counterexample. -/

theorem PROCESS_BITS_eq : PROCESS_BITS = 22 := rfl

theorem PROCESS_MASK_lt : PROCESS_MASK < 2 ^ 22 := by decide

theorem MAX_SOCKETS_eq : MAX_SOCKETS = 1024 := rfl

/-- Shifting the slot index into the bits above PROCESS_BITS and back
recovers it whenever the low part fits below the boundary. -/
theorem lor_shiftRight_cancel (a j : Nat) (ha : a < 2 ^ 22) :
    (a ||| j <<< 22) >>> 22 = j := by
  apply Nat.eq_of_testBit_eq
  intro i
  rw [Nat.testBit_shiftRight, Nat.testBit_lor, Nat.testBit_shiftLeft]
  have h1 : a.testBit (22 + i) = false :=
    Nat.testBit_lt_two_pow
      (lt_of_lt_of_le ha (Nat.pow_le_pow_right (by norm_num) (by omega)))
  have h2 : 22 + i - 22 = i := by omega
  have h3 : 22 + i ≥ 22 := by omega
  simp [h1, h2, h3]

/-- Claim C9: PID allocation fails with ENOBUFS exactly when all
MAX_SOCKETS slots are simultaneously allocated, and after freeing any one
slot the next allocation succeeds again, returning a PID whose high bits
select a slot that was free. -/
theorem pid_alloc_exhaustion_and_reuse :
    (∀ (avail : Nat → Bool) (up : Nat),
        alloc_pid up avail = none ↔ ∀ i, i < MAX_SOCKETS → avail i = true) ∧
    (∀ (avail : Nat → Bool) (pid up : Nat), pid >>> PROCESS_BITS < MAX_SOCKETS →
        ∃ pid2 avail2, alloc_pid up (free_pid pid avail) = some (pid2, avail2) ∧
          free_pid pid avail (pid2 >>> PROCESS_BITS) = false) := by
  constructor
  · intro avail up
    unfold alloc_pid
    cases h : (List.range MAX_SOCKETS).find? (fun i => !avail i) with
    | some i => simp only []; constructor
                · intro hc; exact absurd hc (by simp)
                · intro hall
                  have := List.find?_some h
                  have hm : i ∈ List.range MAX_SOCKETS := List.mem_of_find?_eq_some h
                  rw [List.mem_range] at hm
                  rw [hall i hm] at this
                  simp at this
    | none => simp only []
              rw [List.find?_eq_none] at h
              constructor
              · intro _ i hi
                have := h i (List.mem_range.mpr hi)
                simpa using this
              · intro _; trivial
  · intro avail pid up hs
    set a2 := free_pid pid avail with ha2
    have hfree : a2 (pid >>> PROCESS_BITS) = false := by
      rw [ha2]; unfold free_pid; simp
    have hsome : ((List.range MAX_SOCKETS).find? (fun i => !a2 i)).isSome := by
      rw [List.find?_isSome]
      exact ⟨pid >>> PROCESS_BITS, List.mem_range.mpr hs, by simp [hfree]⟩
    obtain ⟨j, hj⟩ := Option.isSome_iff_exists.mp hsome
    have hja : a2 j = false := by
      have := List.find?_some hj
      simpa using this
    refine ⟨(up &&& PROCESS_MASK) ||| (j <<< PROCESS_BITS),
      (fun j2 => if j2 = j then true else a2 j2), ?_, ?_⟩
    · unfold alloc_pid
      rw [hj]
    · rw [PROCESS_BITS_eq]
      rw [lor_shiftRight_cancel]
      · exact hja
      · exact lt_of_le_of_lt Nat.and_le_right PROCESS_MASK_lt

/-- Witness for the claim C9 theorem at a concrete bitmap and pid. -/
theorem pid_alloc_exhaustion_and_reuse_witness :
    (0 : Nat) >>> PROCESS_BITS < MAX_SOCKETS ∧
    ∃ pid2 avail2,
      alloc_pid 7 (free_pid 0 (fun _ => true)) = some (pid2, avail2) ∧
      free_pid 0 (fun _ => true) (pid2 >>> PROCESS_BITS) = false :=
  ⟨by decide, pid_alloc_exhaustion_and_reuse.2 (fun _ => true) 0 7 (by decide)⟩

/-- Claim C10 counterexample: a run of nl_sock_create in which the only
failing step is the initial plain malloc of the nl_sock structure returns
the error code ENOMEM to the caller instead of aborting. -/
theorem sock_create_returns_enomem :
    nl_sock_create (CreateOracle.mk false true 0 true 0 true 0 true 0 true 0 true 0)
      0 0 0 1234 (fun _ => false) = Except.error ENOMEM ∧ ENOMEM ≠ 0 :=
  ⟨rfl, by decide⟩

/-- Claim C10 as amended: the wrapper allocators convert allocation
failure into an abort and never return an error code, but nl_sock_create
allocates its socket structure with plain malloc and returns ENOMEM to its
caller whenever that allocation fails. -/
theorem xmalloc_aborts_but_sock_create_returns_enomem :
    (∀ b : Bool, xmalloc b = AllocResult.aborted ↔ b = false) ∧
    (∀ (o : CreateOracle) (mg sb rb up : Nat) (avail : Nat → Bool),
        o.mallocOk = false →
        nl_sock_create o mg sb rb up avail = Except.error ENOMEM) := by
  constructor
  · intro b; cases b <;> simp [xmalloc]
  · intro o mg sb rb up avail hm
    unfold nl_sock_create
    rw [hm]
    rfl

/-- Witness for the amended claim C10 theorem at a concrete oracle. -/
theorem xmalloc_aborts_witness :
    (CreateOracle.mk false true 0 true 0 true 0 true 0 true 0 true 0).mallocOk = false ∧
    nl_sock_create (CreateOracle.mk false true 0 true 0 true 0 true 0 true 0 true 0)
      3 1 1 77 (fun _ => true) = Except.error ENOMEM :=
  ⟨rfl, xmalloc_aborts_but_sock_create_returns_enomem.2
    (CreateOracle.mk false true 0 true 0 true 0 true 0 true 0 true 0)
    3 1 1 77 (fun _ => true) rfl⟩

/-- Claim C7: a tcp_send whose underlying write is short (a strict prefix,
or nothing with EAGAIN) stages the pull-advanced original buffer, and a
tcp_postpoll flush with POLLOUT set and sufficient socket capacity then
clears the staging slot, having emitted exactly the byte sequence of the
original buffer on the socket, the same wire sequence a single tcp_send
with a full write emits. -/
theorem tcp_short_send_then_flush (buf : List Nat) (n : Nat) (hn : n < buf.length) :
    (tcp_send (TcpTxState.mk none []) buf (WriteOutcome.wrote n) =
       (0, TcpTxState.mk (some (buf.drop n)) (buf.take n)) ∧
     tcp_postpoll (TcpTxState.mk (some (buf.drop n)) (buf.take n)) true
         (WriteOutcome.wrote (buf.drop n).length) =
       (TcpTxState.mk none buf, false)) ∧
    (tcp_send (TcpTxState.mk none []) buf WriteOutcome.wouldBlock =
       (0, TcpTxState.mk (some buf) []) ∧
     tcp_postpoll (TcpTxState.mk (some buf) []) true (WriteOutcome.wrote buf.length) =
       (TcpTxState.mk none buf, false)) ∧
    tcp_send (TcpTxState.mk none []) buf (WriteOutcome.wrote buf.length) =
      (0, TcpTxState.mk none buf) := by
  have hpos : 0 < buf.length - n := by omega
  refine ⟨⟨?_, ?_⟩, ⟨?_, ?_⟩, ?_⟩
  · simp [tcp_send, Nat.ne_of_lt hn]
  · have e1 : n + (buf.length - n) = buf.length := by omega
    have e2 : List.take (buf.length - n) (List.drop n buf) = List.drop n buf :=
      List.take_of_length_le (by simp [List.length_drop])
    simp [tcp_postpoll, List.length_drop, hpos, e1, e2, List.drop_length,
      List.take_append_drop]
  · simp [tcp_send]
  · simp [tcp_postpoll, List.drop_length, List.take_length,
      show 0 < buf.length from by omega]
  · simp [tcp_send]

/-- Witness for the claim C7 theorem on a concrete 4-byte message cut
after the first byte. -/
theorem tcp_short_send_then_flush_witness :
    1 < [10, 20, 30, 40].length ∧
    tcp_send (TcpTxState.mk none []) [10, 20, 30, 40] (WriteOutcome.wrote 1) =
      (0, TcpTxState.mk (some ([10, 20, 30, 40].drop 1)) ([10, 20, 30, 40].take 1)) :=
  ⟨by decide, (tcp_short_send_then_flush [10, 20, 30, 40] 1 (by decide)).1.1⟩

/-- Claim C2: a well-formed OpenFlow frame whose length field equals the
8-byte header size is never delivered by tcp_recv.  After the peer
delivers exactly those 8 bytes, the call consumes them into the assembly
buffer and returns EPROTO, and every further call returns EPROTO again
with the state unchanged, so success is never reached. -/
theorem tcp_recv_zero_payload_frame_stuck :
    readBe16 [4, 2, 0, 8, 9, 9, 9, 7] 2 = sizeofOfpHeader ∧
    tcp_recv (TcpRxState.mk none [4, 2, 0, 8, 9, 9, 9, 7]) =
      (TcpRecvResult.err (EPROTO : Nat), TcpRxState.mk (some [4, 2, 0, 8, 9, 9, 9, 7]) []) ∧
    tcp_recv (TcpRxState.mk (some [4, 2, 0, 8, 9, 9, 9, 7]) []) =
      (TcpRecvResult.err (EPROTO : Nat), TcpRxState.mk (some [4, 2, 0, 8, 9, 9, 9, 7]) []) := by
  decide

theorem decodeLe_take_two (l : List Nat) :
    decodeLe (l.take 2) = l.getD 0 0 + 256 * l.getD 1 0 := by
  match l with
  | [] => simp [decodeLe]
  | [a] => simp [decodeLe, List.getD]
  | a :: b :: t => simp [decodeLe, List.getD, List.take_succ_cons]

theorem readLe_two (m : List Nat) (off : Nat) :
    readLe m off 2 = m.getD off 0 + 256 * m.getD (off + 1) 0 := by
  unfold readLe
  rw [decodeLe_take_two]
  simp [List.getD_eq_getElem?_getD, List.getElem?_drop]

theorem getD_lt_256 (m : List Nat) (i : Nat) (hbytes : ∀ b ∈ m, b < 256) :
    m.getD i 0 < 256 := by
  rw [List.getD_eq_getElem?_getD]
  cases h : m[i]? with
  | none => simp
  | some a => simpa using hbytes a (List.getElem?_mem h)

/-- Setting the NLM_F_ACK bit: the flags field of the ACK-forced request is
the original flags field with the NLM_F_ACK bit ored in. -/
theorem withAck_flags (req : List Nat) (hlen : 8 ≤ req.length)
    (hbytes : ∀ b ∈ req, b < 256) :
    readLe (withAck req) 6 2 = readLe req 6 2 ||| NLM_F_ACK := by
  have h6 : req.getD 6 0 < 256 := getD_lt_256 req 6 hbytes
  have h7 : req.getD (6 + 1) 0 < 256 := getD_lt_256 req (6 + 1) hbytes
  have hflags : readLe req 6 2 < 2 ^ 16 := by
    rw [readLe_two]; omega
  have hlor : readLe req 6 2 ||| NLM_F_ACK < 2 ^ 16 :=
    Nat.bitwise_lt_two_pow hflags (by decide)
  unfold withAck
  rw [readLe_two]
  have e6 : ((req.set 6 ((readLe req 6 2 ||| NLM_F_ACK) % 256)).set 7
      ((readLe req 6 2 ||| NLM_F_ACK) / 256 % 256))[6]? =
      some ((readLe req 6 2 ||| NLM_F_ACK) % 256) := by
    rw [List.getElem?_set_ne (by decide : (7 : Nat) ≠ 6)]
    exact List.getElem?_set_self (by omega)
  have e7 : ((req.set 6 ((readLe req 6 2 ||| NLM_F_ACK) % 256)).set 7
      ((readLe req 6 2 ||| NLM_F_ACK) / 256 % 256))[7]? =
      some ((readLe req 6 2 ||| NLM_F_ACK) / 256 % 256) := by
    exact List.getElem?_set_self (by simp [List.length_set]; omega)
  rw [List.getD_eq_getElem?_getD, List.getD_eq_getElem?_getD]
  norm_num
  rw [List.getElem?_set_self (by omega), e7]
  simp only [Option.getD_some]
  omega

/-- Invariants of the receive loop of nl_sock_transact, proved along the
trace of receive outcomes: every resend sends the same bytes, resends
correspond one to one to ENOBUFS failures, the accepted reply carries the
expected sequence number, and ENOBUFS failures and stale-sequence replies
never terminate the loop. -/
theorem transactLoop_spec (reqSeq : Nat) (sm : List Nat) (events : List RecvOutcome) :
    ∀ res : TransactResult, transactLoop reqSeq sm events = some res →
      (∀ m ∈ res.sent, m = sm) ∧
      res.sent.length = res.consumed.countP isEnobufs ∧
      (∀ b, res.accepted = some b → nlmsgSeq b = reqSeq) ∧
      (∀ b, res.reply = some b → res.accepted = some b) ∧
      res.consumed ≠ [] ∧
      (∀ e, res.consumed.getLast? = some e →
        (match e with
         | RecvOutcome.fail ev => ev ≠ ENOBUFS
         | RecvOutcome.ok b => nlmsgSeq b = reqSeq)) ∧
      (∀ b, res.accepted = some b →
        (match nl_msg_nlmsgerr b with
         | some code => res.ret = (if code ≠ EAGAIN then code else EPROTO) ∧
             res.reply = none
         | none => res.ret = 0 ∧ res.reply = some b)) := by
  induction events with
  | nil => intro res h; simp [transactLoop] at h
  | cons ev rest ih =>
    intro res h
    cases ev with
    | fail e =>
      by_cases he : e = ENOBUFS
      · rw [transactLoop, if_pos he] at h
        rw [Option.map_eq_some'] at h
        obtain ⟨r, hr, hres⟩ := h
        obtain ⟨i1, i2, i3, i4, i5, i6, i7⟩ := ih r hr
        subst hres
        refine ⟨?_, ?_, i3, i4, by simp, ?_, i7⟩
        · intro m hm
          rcases List.mem_cons.mp hm with h1 | h2
          · exact h1
          · exact i1 m h2
        · simp only [List.length_cons, List.countP_cons, isEnobufs, he]
          simp [i2]
        · intro e2 hlast
          obtain ⟨x, hx⟩ : ∃ x, r.consumed.getLast? = some x := by
            cases hc : r.consumed.getLast? with
            | none => exact absurd (List.getLast?_eq_none_iff.mp hc) i5
            | some y => exact ⟨y, rfl⟩
          have : (RecvOutcome.fail e :: r.consumed).getLast? = some x := by
            rw [List.getLast?_cons, hx]; simp
          rw [this] at hlast
          cases hlast
          exact i6 _ hx
      · rw [transactLoop, if_neg he] at h
        cases h
        refine ⟨by simp, ?_, by simp, by simp, by simp, ?_, by simp⟩
        · simp [List.countP_cons, isEnobufs, he]
        · intro e2 hlast
          simp only [List.getLast?_cons, List.getLast?_nil] at hlast
          cases hlast
          exact he
    | ok buf =>
      by_cases hseq : nlmsgSeq buf ≠ reqSeq
      · rw [transactLoop, if_pos hseq] at h
        rw [Option.map_eq_some'] at h
        obtain ⟨r, hr, hres⟩ := h
        obtain ⟨i1, i2, i3, i4, i5, i6, i7⟩ := ih r hr
        subst hres
        refine ⟨i1, ?_, i3, i4, by simp, ?_, i7⟩
        · simp [List.countP_cons, isEnobufs, i2]
        · intro e2 hlast
          obtain ⟨x, hx⟩ : ∃ x, r.consumed.getLast? = some x := by
            cases hc : r.consumed.getLast? with
            | none => exact absurd (List.getLast?_eq_none_iff.mp hc) i5
            | some y => exact ⟨y, rfl⟩
          have : (RecvOutcome.ok buf :: r.consumed).getLast? = some x := by
            rw [List.getLast?_cons, hx]; simp
          rw [this] at hlast
          cases hlast
          exact i6 _ hx
      · have hseq2 : nlmsgSeq buf = reqSeq := by omega
        rw [transactLoop, if_neg hseq] at h
        cases herr : nl_msg_nlmsgerr buf with
        | some code =>
          rw [herr] at h
          cases h
          refine ⟨by simp, ?_, ?_, by simp, by simp, ?_, ?_⟩
          · simp [List.countP_cons, isEnobufs]
          · intro b hb; cases hb; exact hseq2
          · intro e2 hlast
            simp only [List.getLast?_cons, List.getLast?_nil] at hlast
            cases hlast
            exact hseq2
          · intro b hb
            cases hb
            rw [herr]
            exact ⟨rfl, rfl⟩
        | none =>
          rw [herr] at h
          cases h
          refine ⟨by simp, ?_, ?_, ?_, by simp, ?_, ?_⟩
          · simp [List.countP_cons, isEnobufs]
          · intro b hb; cases hb; exact hseq2
          · intro b hb; cases hb; rfl
          · intro e2 hlast
            simp only [List.getLast?_cons, List.getLast?_nil] at hlast
            cases hlast
            exact hseq2
          · intro b hb
            cases hb
            rw [herr]
            exact ⟨rfl, rfl⟩

/-- Claim C3: nl_sock_transact sets NLM_F_ACK on the request before
sending, resends the identical request after every ENOBUFS receive
failure, discards replies whose sequence number differs from the request
(receiving again rather than terminating), and any reply it finally
accepts, whether handed to the caller or decoded as NLMSG_ERROR, carries
the sequence number of the request. -/
theorem transact_reliable_protocol (req : List Nat) (events : List RecvOutcome)
    (res : TransactResult) (hlen : 16 ≤ req.length)
    (hbytes : ∀ b ∈ req, b < 256)
    (h : nl_sock_transact req events = some res) :
    readLe (withAck req) 6 2 = readLe req 6 2 ||| NLM_F_ACK ∧
    (∀ m ∈ res.sent, m = withAck req) ∧
    res.sent.length = 1 + res.consumed.countP isEnobufs ∧
    (∀ b, res.accepted = some b → nlmsgSeq b = nlmsgSeq req) ∧
    (∀ b, res.reply = some b → res.accepted = some b) ∧
    (∀ e, res.consumed.getLast? = some e →
      (match e with
       | RecvOutcome.fail ev => ev ≠ ENOBUFS
       | RecvOutcome.ok b => nlmsgSeq b = nlmsgSeq req)) := by
  unfold nl_sock_transact at h
  rw [Option.map_eq_some'] at h
  obtain ⟨r, hr, hres⟩ := h
  obtain ⟨i1, i2, i3, i4, i5, i6, i7⟩ := transactLoop_spec (nlmsgSeq req) (withAck req) events r hr
  subst hres
  refine ⟨withAck_flags req (by omega) hbytes, ?_, ?_, i3, i4, i6⟩
  · intro m hm
    rcases List.mem_cons.mp hm with h1 | h2
    · exact h1
    · exact i1 m h2
  · simp [i2]; omega

/-- Witness for the claim C3 theorem: a trace with one ENOBUFS drop and
one stale reply before the matching reply; both sends carry the
ACK-flagged request. -/
theorem transact_reliable_protocol_witness :
    16 ≤ (nlmsghdrBytes 33 1 5 9).length ∧
    (∀ b ∈ nlmsghdrBytes 33 1 5 9, b < 256) ∧
    nl_sock_transact (nlmsghdrBytes 33 1 5 9)
        [RecvOutcome.fail ENOBUFS, RecvOutcome.ok (nlmsghdrBytes 1 0 4 0),
         RecvOutcome.ok (nlmsghdrBytes 3 0 5 0)] =
      some (TransactResult.mk 0 (some (nlmsghdrBytes 3 0 5 0))
        [withAck (nlmsghdrBytes 33 1 5 9), withAck (nlmsghdrBytes 33 1 5 9)]
        [RecvOutcome.fail ENOBUFS, RecvOutcome.ok (nlmsghdrBytes 1 0 4 0),
         RecvOutcome.ok (nlmsghdrBytes 3 0 5 0)]
        (some (nlmsghdrBytes 3 0 5 0))) ∧
    (∀ m ∈ (TransactResult.mk 0 (some (nlmsghdrBytes 3 0 5 0))
        [withAck (nlmsghdrBytes 33 1 5 9), withAck (nlmsghdrBytes 33 1 5 9)]
        [RecvOutcome.fail ENOBUFS, RecvOutcome.ok (nlmsghdrBytes 1 0 4 0),
         RecvOutcome.ok (nlmsghdrBytes 3 0 5 0)]
        (some (nlmsghdrBytes 3 0 5 0))).sent,
       m = withAck (nlmsghdrBytes 33 1 5 9)) :=
  ⟨by decide, by decide, by decide,
   (transact_reliable_protocol (nlmsghdrBytes 33 1 5 9)
     [RecvOutcome.fail ENOBUFS, RecvOutcome.ok (nlmsghdrBytes 1 0 4 0),
      RecvOutcome.ok (nlmsghdrBytes 3 0 5 0)]
     (TransactResult.mk 0 (some (nlmsghdrBytes 3 0 5 0))
        [withAck (nlmsghdrBytes 33 1 5 9), withAck (nlmsghdrBytes 33 1 5 9)]
        [RecvOutcome.fail ENOBUFS, RecvOutcome.ok (nlmsghdrBytes 1 0 4 0),
         RecvOutcome.ok (nlmsghdrBytes 3 0 5 0)]
        (some (nlmsghdrBytes 3 0 5 0)))
     (by decide) (by decide) (by decide)).2.1⟩

/-- Claim C8: when the reply a transact accepts is an NLMSG_ERROR message
whose error code decodes to 0 (an ACK), nl_sock_transact returns 0 while
the reply handed to the caller stays null. -/
theorem transact_ack_returns_null_reply (req : List Nat) (events : List RecvOutcome)
    (res : TransactResult) (b : List Nat)
    (h : nl_sock_transact req events = some res)
    (hacc : res.accepted = some b)
    (herr : nl_msg_nlmsgerr b = some 0) :
    res.ret = 0 ∧ res.reply = none := by
  unfold nl_sock_transact at h
  rw [Option.map_eq_some'] at h
  obtain ⟨r, hr, hres⟩ := h
  obtain ⟨i1, i2, i3, i4, i5, i6, i7⟩ :=
    transactLoop_spec (nlmsgSeq req) (withAck req) events r hr
  subst hres
  simp only [] at hacc
  have := i7 b hacc
  rw [herr] at this
  simpa using this

/-- Witness for the claim C8 theorem: a 36-byte NLMSG_ERROR reply with
code 0 and matching sequence number 5. -/
theorem transact_ack_returns_null_reply_witness :
    nl_sock_transact (nlmsghdrBytes 33 1 5 9)
        [RecvOutcome.ok (leBytes 4 36 ++ leBytes 2 2 ++ leBytes 2 0 ++ leBytes 4 5 ++
          leBytes 4 0 ++ List.replicate 20 0)] =
      some (TransactResult.mk 0 none [withAck (nlmsghdrBytes 33 1 5 9)]
        [RecvOutcome.ok (leBytes 4 36 ++ leBytes 2 2 ++ leBytes 2 0 ++ leBytes 4 5 ++
          leBytes 4 0 ++ List.replicate 20 0)]
        (some (leBytes 4 36 ++ leBytes 2 2 ++ leBytes 2 0 ++ leBytes 4 5 ++
          leBytes 4 0 ++ List.replicate 20 0))) ∧
    nl_msg_nlmsgerr (leBytes 4 36 ++ leBytes 2 2 ++ leBytes 2 0 ++ leBytes 4 5 ++
      leBytes 4 0 ++ List.replicate 20 0) = some 0 ∧
    ((TransactResult.mk 0 none [withAck (nlmsghdrBytes 33 1 5 9)]
        [RecvOutcome.ok (leBytes 4 36 ++ leBytes 2 2 ++ leBytes 2 0 ++ leBytes 4 5 ++
          leBytes 4 0 ++ List.replicate 20 0)]
        (some (leBytes 4 36 ++ leBytes 2 2 ++ leBytes 2 0 ++ leBytes 4 5 ++
          leBytes 4 0 ++ List.replicate 20 0))).ret = 0 ∧
     (TransactResult.mk 0 none [withAck (nlmsghdrBytes 33 1 5 9)]
        [RecvOutcome.ok (leBytes 4 36 ++ leBytes 2 2 ++ leBytes 2 0 ++ leBytes 4 5 ++
          leBytes 4 0 ++ List.replicate 20 0)]
        (some (leBytes 4 36 ++ leBytes 2 2 ++ leBytes 2 0 ++ leBytes 4 5 ++
          leBytes 4 0 ++ List.replicate 20 0))).reply = none) :=
  ⟨by decide, by decide,
   transact_ack_returns_null_reply (nlmsghdrBytes 33 1 5 9)
     [RecvOutcome.ok (leBytes 4 36 ++ leBytes 2 2 ++ leBytes 2 0 ++ leBytes 4 5 ++
       leBytes 4 0 ++ List.replicate 20 0)]
     (TransactResult.mk 0 none [withAck (nlmsghdrBytes 33 1 5 9)]
        [RecvOutcome.ok (leBytes 4 36 ++ leBytes 2 2 ++ leBytes 2 0 ++ leBytes 4 5 ++
          leBytes 4 0 ++ List.replicate 20 0)]
        (some (leBytes 4 36 ++ leBytes 2 2 ++ leBytes 2 0 ++ leBytes 4 5 ++
          leBytes 4 0 ++ List.replicate 20 0)))
     (leBytes 4 36 ++ leBytes 2 2 ++ leBytes 2 0 ++ leBytes 4 5 ++
       leBytes 4 0 ++ List.replicate 20 0)
     (by decide) (by decide) (by decide)⟩

theorem leBytes_length (n v : Nat) : (leBytes n v).length = n := by
  induction n generalizing v with
  | zero => rfl
  | succ k ih => simp [leBytes, ih]

theorem decodeLe_leBytes (n v : Nat) : decodeLe (leBytes n v) = v % 256 ^ n := by
  induction n generalizing v with
  | zero => simp [leBytes, decodeLe, Nat.mod_one]
  | succ k ih =>
    rw [leBytes, decodeLe, ih]
    rw [pow_succ, mul_comm (256 ^ k) 256, Nat.mod_mul]

theorem le_nlaAlign (x : Nat) : x ≤ nlaAlign x := by
  unfold nlaAlign; omega

theorem nlaAlign_mod (x : Nat) : nlaAlign x % 4 = 0 := by
  unfold nlaAlign; omega

theorem readLe_append_left (a b : List Nat) (off n : Nat) (h : off + n ≤ a.length) :
    readLe (a ++ b) off n = readLe a off n := by
  unfold readLe
  rw [List.drop_append_of_le_length (by omega)]
  rw [List.take_append_of_le_length (by simp [List.length_drop]; omega)]

theorem readLe_append_start (a b : List Nat) (n : Nat) :
    readLe (a ++ b) a.length n = decodeLe (b.take n) := by
  unfold readLe
  rw [List.drop_left]

theorem nl_msg_put_eq (msg data : List Nat) :
    nl_msg_put msg data =
      msg ++ (data ++ List.replicate (nlaAlign data.length - data.length) 0) := by
  simp [nl_msg_put]

theorem nl_msg_put_length (msg data : List Nat) :
    (nl_msg_put msg data).length = msg.length + nlaAlign data.length := by
  have := le_nlaAlign data.length
  simp [nl_msg_put, List.length_append, List.length_replicate]
  omega

theorem nl_msg_put_unspec_eq (msg : List Nat) (ty : Nat) (data : List Nat) :
    nl_msg_put_unspec msg ty data =
      msg ++ ((nlattrHeader (NLA_HDRLEN + data.length) ty ++ data) ++
        List.replicate (nlaAlign (NLA_HDRLEN + data.length) -
          (NLA_HDRLEN + data.length)) 0) := by
  unfold nl_msg_put_unspec
  rw [nl_msg_put_eq]
  have hlen : (nlattrHeader (NLA_HDRLEN + data.length) ty ++ data).length =
      NLA_HDRLEN + data.length := by
    simp [nlattrHeader, leBytes_length, NLA_HDRLEN]
    omega
  rw [hlen]

theorem nl_msg_put_unspec_length (msg : List Nat) (ty : Nat) (data : List Nat) :
    (nl_msg_put_unspec msg ty data).length =
      msg.length + nlaAlign (NLA_HDRLEN + data.length) := by
  unfold nl_msg_put_unspec
  rw [nl_msg_put_length]
  have hlen : (nlattrHeader (NLA_HDRLEN + data.length) ty ++ data).length =
      NLA_HDRLEN + data.length := by
    simp [nlattrHeader, leBytes_length, NLA_HDRLEN]
    omega
  rw [hlen]

/-- Appending bytes at the tail of a message preserves the invariant of
every attribute already recorded inside it. -/
theorem RecOk_append (msg t : List Nat) (rec : AttrRec) (h : RecOk msg rec) :
    RecOk (msg ++ t) rec := by
  obtain ⟨a1, a2, a3, a4, a5, a6, a7, a8⟩ := h
  have halign : rec.nlaLen ≤ nlaAlign rec.nlaLen := le_nlaAlign rec.nlaLen
  refine ⟨a1, a2, a3, a4, a5, ?_, ?_, ?_⟩
  · rw [List.length_append]; omega
  · rw [readLe_append_left]
    · exact a7
    · simp only [NLA_HDRLEN] at a4
      omega
  · intro i hi1 hi2
    rw [List.getD_append]
    · exact a8 i hi1 hi2
    · omega

/-- The attribute inserted by nl_msg_put_unspec at a 4-byte-aligned tail
satisfies the invariant in the extended message. -/
theorem RecOk_insert (msg : List Nat) (ty : Nat) (data : List Nat)
    (h1 : msg.length % 4 = 0)
    (hop : nlaAlign (NLA_HDRLEN + data.length) ≤ 65535) :
    RecOk (nl_msg_put_unspec msg ty data)
      (AttrRec.mk msg.length (msg.length + NLA_HDRLEN)
        (NLA_HDRLEN + data.length) data.length) := by
  have hle : NLA_HDRLEN + data.length ≤ nlaAlign (NLA_HDRLEN + data.length) :=
    le_nlaAlign (NLA_HDRLEN + data.length)
  unfold RecOk
  dsimp only
  refine ⟨h1, rfl, ?_, rfl, by omega, ?_, ?_, ?_⟩
  · simp only [NLA_HDRLEN]; omega
  · rw [nl_msg_put_unspec_length]
  · rw [nl_msg_put_unspec_eq, readLe_append_start]
    have h2 : (2 : Nat) ≤ (leBytes 2 (NLA_HDRLEN + data.length)).length := by
      rw [leBytes_length]
    rw [nlattrHeader, List.append_assoc, List.append_assoc]
    rw [List.take_append_of_le_length h2]
    have : List.take 2 (leBytes 2 (NLA_HDRLEN + data.length)) =
        leBytes 2 (NLA_HDRLEN + data.length) :=
      List.take_of_length_le (by rw [leBytes_length])
    rw [this, decodeLe_leBytes]
    exact Nat.mod_eq_of_lt (by norm_num; omega)
  · intro i hi1 hi2
    rw [nl_msg_put_unspec_eq, ← List.append_assoc]
    have hpre : (msg ++ (nlattrHeader (NLA_HDRLEN + data.length) ty ++ data)).length =
        msg.length + (NLA_HDRLEN + data.length) := by
      simp [nlattrHeader, leBytes_length, List.length_append, NLA_HDRLEN]
      omega
    have hb1 : (msg ++ (nlattrHeader (NLA_HDRLEN + data.length) ty ++ data)).length ≤ i := by
      rw [hpre]
      simp only [NLA_HDRLEN] at hi1 ⊢
      omega
    rw [List.getD_append_right _ _ _ _ hb1]
    rw [List.getD_eq_getElem?_getD, List.getElem?_replicate, if_pos ?_]
    · simp
    · rw [hpre]
      simp only [NLA_HDRLEN] at hi1 hi2 ⊢
      omega

/-- One build step preserves the alignment of the message length and the
invariant of every recorded attribute. -/
theorem buildStep_inv (st : List Nat × List AttrRec) (op : BuildOp)
    (hop : opAssertOk op = true)
    (h1 : st.1.length % 4 = 0) (h2 : ∀ rec ∈ st.2, RecOk st.1 rec) :
    (buildStep st op).1.length % 4 = 0 ∧
    ∀ rec ∈ (buildStep st op).2, RecOk (buildStep st op).1 rec := by
  obtain ⟨msg, recs⟩ := st
  dsimp only at h1 h2
  cases op with
  | hdr ty flags seq pid =>
    constructor
    · rw [buildStep, nl_msg_put_length]
      have := nlaAlign_mod (nlmsghdrBytes ty flags seq pid).length
      omega
    · intro rec hrec
      rw [buildStep, nl_msg_put_eq]
      exact RecOk_append msg _ rec (h2 rec hrec)
  | genl cmd version =>
    constructor
    · rw [buildStep, nl_msg_put_length]
      have := nlaAlign_mod ([cmd % 256, version % 256, 0, 0] : List Nat).length
      omega
    · intro rec hrec
      rw [buildStep, nl_msg_put_eq]
      exact RecOk_append msg _ rec (h2 rec hrec)
  | raw data =>
    constructor
    · rw [buildStep, nl_msg_put_length]
      have := nlaAlign_mod data.length
      omega
    · intro rec hrec
      rw [buildStep, nl_msg_put_eq]
      exact RecOk_append msg _ rec (h2 rec hrec)
  | unspec ty data =>
    have hok : nlaAlign (NLA_HDRLEN + data.length) ≤ 65535 := by
      simpa [opAssertOk] using hop
    constructor
    · rw [buildStep, nl_msg_put_unspec_length]
      have := nlaAlign_mod (NLA_HDRLEN + data.length)
      omega
    · intro rec hrec
      rw [buildStep] at hrec ⊢
      rcases List.mem_append.mp hrec with hold | hnew
      · rw [nl_msg_put_unspec_eq]
        exact RecOk_append msg _ rec (h2 rec hold)
      · have heq := List.mem_singleton.mp hnew
        rw [heq]
        exact RecOk_insert msg ty data h1 hok

theorem build_foldl_inv (ops : List BuildOp) :
    ∀ st : List Nat × List AttrRec,
      (∀ op ∈ ops, opAssertOk op = true) →
      st.1.length % 4 = 0 → (∀ rec ∈ st.2, RecOk st.1 rec) →
      (ops.foldl buildStep st).1.length % 4 = 0 ∧
        ∀ rec ∈ (ops.foldl buildStep st).2, RecOk (ops.foldl buildStep st).1 rec := by
  induction ops with
  | nil => intro st _ h1 h2; exact ⟨h1, h2⟩
  | cons op rest ih =>
    intro st hok h1 h2
    rw [List.foldl_cons]
    have hop : opAssertOk op = true := hok op (List.mem_cons_self op rest)
    obtain ⟨g1, g2⟩ := buildStep_inv st op hop h1 h2
    exact ih (buildStep st op) (fun o ho => hok o (List.mem_cons_of_mem op ho)) g1 g2

/-- Claim C5: in every message built with the put operations, every
inserted attribute has its payload at an offset that is a multiple of 4,
its nla_len field stores the unaligned header-plus-payload length (both in
the record and in the message bytes) while the next data begins at the
4-byte-aligned offset inside the message, and every padding byte between
the payload end and the aligned end is zero. -/
theorem built_attributes_aligned_padded (ops : List BuildOp)
    (hok : ∀ op ∈ ops, opAssertOk op = true) :
    ∀ rec ∈ (build ops).2, RecOk (build ops).1 rec :=
  (build_foldl_inv ops ([], []) hok (by simp) (by simp)).2

/-- Witness for the claim C5 theorem: a generic-netlink message carrying
one 3-byte unspec attribute, whose record shows payload offset 24,
nla_len 7 and one zero padding byte. -/
theorem built_attributes_aligned_padded_witness :
    (∀ op ∈ [BuildOp.hdr 16 1 42 7, BuildOp.genl 3 1, BuildOp.unspec 2 [5, 6, 7]],
       opAssertOk op = true) ∧
    ∀ rec ∈ (build [BuildOp.hdr 16 1 42 7, BuildOp.genl 3 1,
        BuildOp.unspec 2 [5, 6, 7]]).2,
      RecOk (build [BuildOp.hdr 16 1 42 7, BuildOp.genl 3 1,
        BuildOp.unspec 2 [5, 6, 7]]).1 rec :=
  ⟨by decide,
   built_attributes_aligned_padded
     [BuildOp.hdr 16 1 42 7, BuildOp.genl 3 1, BuildOp.unspec 2 [5, 6, 7]]
     (by decide)⟩

/-- Claim C1: the tail check of nl_policy_parse tests the aligned payload
length NLA_ALIGN(nla_len - NLA_HDRLEN) instead of the aligned total length
NLA_ALIGN(nla_len).  On a 24-byte message whose single attribute claims
nla_len 8 while only its 4 header bytes are present, the parse succeeds
and stores a pointer to an attribute whose aligned span of 8 bytes runs 4
bytes past the message tail, where the claim demands rejection.  The
cited nla_len 3 case is rejected as the claim states. -/
theorem parse_accepts_attribute_past_tail :
    nl_policy_parse (List.replicate 20 0 ++ [8, 0, 0, 0]) [policyOf NlAttrType.u32] =
      some [some 20] ∧
    (List.replicate 20 0 ++ [8, 0, 0, 0]).length = 24 ∧
    readLe (List.replicate 20 0 ++ [8, 0, 0, 0]) 20 2 = 8 ∧
    20 + nlaAlign 8 = 28 ∧
    nl_policy_parse (List.replicate 20 0 ++ [3, 0, 0, 0]) [policyOf NlAttrType.u32] =
      none := by
  decide

theorem readLe_concat (a mid post : List Nat) (n : Nat) (hn : mid.length = n) :
    readLe (a ++ (mid ++ post)) a.length n = decodeLe mid := by
  rw [readLe_append_start]
  rw [List.take_append_of_le_length (le_of_eq hn.symm)]
  rw [List.take_of_length_le (le_of_eq hn)]

theorem getD_replicate_append {α : Type} (x y d : α) (T : Nat) :
    (List.replicate T x ++ [y]).getD T d = y := by
  rw [List.getD_eq_getElem?_getD, List.getElem?_append_right (by simp)]
  simp

theorem getD_replicate {α : Type} (a : α) (n i : Nat) :
    (List.replicate n a).getD i a = a := by
  rw [List.getD_eq_getElem?_getD, List.getElem?_replicate]
  split <;> rfl

/-- One iteration of the parse walk over an attribute at offset p whose
type has a policy entry of a non-string kind with a passing length check:
the walk stores the offset (overwriting any previous one), decrements the
required count exactly when the slot was empty, and advances by the
aligned total length. -/
theorem parseAttrsLoop_step_store (msg : List Nat) (policy : List NlPolicy)
    (fuel p : Nat) (attrs : List (Option Nat)) (nreq T k : Nat)
    (t : NlAttrType)
    (hp : p < msg.length)
    (hlenfield : readLe msg p 2 = 4 + k)
    (htyfield : readLe msg (p + 2) 2 = T)
    (halign : nlaAlign k ≤ msg.length - p)
    (hT : T < policy.length)
    (hpol : policy.getD T (policyOf NlAttrType.noAttr) = policyOf t)
    (hnoattr : t ≠ NlAttrType.noAttr) (hstr : t ≠ NlAttrType.string)
    (hrange : lenOutOfRange (policyOf t) k = false) :
    parseAttrsLoop msg policy (fuel + 1) p attrs nreq =
      parseAttrsLoop msg policy fuel (p + nlaAlign (4 + k))
        (attrs.set T (some p))
        (if attrs.getD T none = none then nreq - 1 else nreq) := by
  have hsub : 4 + k - NLA_HDRLEN = k := by simp only [NLA_HDRLEN]; omega
  rw [parseAttrsLoop]
  rw [hlenfield, htyfield, hsub]
  rw [if_pos hp]
  rw [if_neg (by simp only [NLA_HDRLEN]; omega)]
  rw [if_neg (by omega)]
  rw [if_pos hT, hpol]
  rw [if_neg (by simpa [policyOf] using hnoattr)]
  rw [if_neg (by simp [hrange])]
  rw [if_neg (by simp [policyOf, hstr])]
  congr 1
  simp [policyOf]

/-- Terminal iteration of the parse walk: once p has reached the tail with
every required slot filled, the walk returns the attrs array. -/
theorem parseAttrsLoop_done (msg : List Nat) (policy : List NlPolicy)
    (fuel p : Nat) (attrs : List (Option Nat)) (hp : ¬ p < msg.length) :
    parseAttrsLoop msg policy (fuel + 1) p attrs 0 = some attrs := by
  rw [parseAttrsLoop, if_neg hp]
  simp

/-- Field readout of an attribute appended by nl_msg_put_unspec at the
tail of pre: the nla_len field holds 4 + k, the nla_type field holds T,
the payload decodes to v reduced to k bytes, and the message grows by the
aligned total length. -/
theorem attr_fields (pre : List Nat) (T k v : Nat) (hk : k ≤ 8) (hT : T < 65536) :
    readLe (nl_msg_put_unspec pre T (leBytes k v)) pre.length 2 = 4 + k ∧
    readLe (nl_msg_put_unspec pre T (leBytes k v)) (pre.length + 2) 2 = T ∧
    readLe (nl_msg_put_unspec pre T (leBytes k v)) (pre.length + 4) k = v % 256 ^ k ∧
    (nl_msg_put_unspec pre T (leBytes k v)).length = pre.length + nlaAlign (4 + k) := by
  have h4k : NLA_HDRLEN + (leBytes k v).length = 4 + k := by
    simp only [NLA_HDRLEN, leBytes_length]
  have hmsgeq : nl_msg_put_unspec pre T (leBytes k v) =
      pre ++ (((leBytes 2 (4 + k) ++ leBytes 2 T) ++ leBytes k v) ++
        List.replicate (nlaAlign (4 + k) - (4 + k)) 0) := by
    rw [nl_msg_put_unspec_eq]
    rw [nlattrHeader, h4k]
  refine ⟨?_, ?_, ?_, ?_⟩
  · rw [hmsgeq]
    have hg : pre ++ (((leBytes 2 (4 + k) ++ leBytes 2 T) ++ leBytes k v) ++
        List.replicate (nlaAlign (4 + k) - (4 + k)) 0) =
        pre ++ (leBytes 2 (4 + k) ++ (leBytes 2 T ++ (leBytes k v ++
          List.replicate (nlaAlign (4 + k) - (4 + k)) 0))) := by
      simp [List.append_assoc]
    rw [hg, readLe_concat pre _ _ 2 (leBytes_length 2 (4 + k))]
    rw [decodeLe_leBytes]
    exact Nat.mod_eq_of_lt (by norm_num; omega)
  · rw [hmsgeq]
    have hg : pre ++ (((leBytes 2 (4 + k) ++ leBytes 2 T) ++ leBytes k v) ++
        List.replicate (nlaAlign (4 + k) - (4 + k)) 0) =
        (pre ++ leBytes 2 (4 + k)) ++ (leBytes 2 T ++ (leBytes k v ++
          List.replicate (nlaAlign (4 + k) - (4 + k)) 0)) := by
      simp [List.append_assoc]
    rw [hg]
    have hoff : pre.length + 2 = (pre ++ leBytes 2 (4 + k)).length := by
      simp [leBytes_length]
    rw [hoff, readLe_concat _ _ _ 2 (leBytes_length 2 T)]
    rw [decodeLe_leBytes]
    exact Nat.mod_eq_of_lt (by norm_num; omega)
  · rw [hmsgeq]
    have hg : pre ++ (((leBytes 2 (4 + k) ++ leBytes 2 T) ++ leBytes k v) ++
        List.replicate (nlaAlign (4 + k) - (4 + k)) 0) =
        ((pre ++ leBytes 2 (4 + k)) ++ leBytes 2 T) ++ (leBytes k v ++
          List.replicate (nlaAlign (4 + k) - (4 + k)) 0) := by
      simp [List.append_assoc]
    rw [hg]
    have hoff : pre.length + 4 = ((pre ++ leBytes 2 (4 + k)) ++ leBytes 2 T).length := by
      simp [leBytes_length]
    rw [hoff, readLe_concat _ _ _ k (leBytes_length k v)]
    rw [decodeLe_leBytes]
  · rw [nl_msg_put_unspec_length]
    rw [h4k]

/-- Parsing a message that consists of the 20 header bytes followed by one
attribute of type T with a k-byte payload, under a policy whose only entry
maps T to a required kind with payload range exactly k, stores offset 20
into the attrs slot of T and succeeds; the payload reads back as v reduced
to k bytes. -/
theorem parse_single_attr (pre : List Nat) (t : NlAttrType) (T k v : Nat)
    (hpre : pre.length = 20) (hT : T < 65536) (_hk1 : 1 ≤ k) (hk8 : k ≤ 8)
    (hmin : defaultMinLen t = k) (hmax : defaultMaxLen t = some k)
    (hnoattr : t ≠ NlAttrType.noAttr) (hstr : t ≠ NlAttrType.string)
    (hflag : t ≠ NlAttrType.flag) :
    nl_policy_parse (nl_msg_put_unspec pre T (leBytes k v))
        (List.replicate T (policyOf NlAttrType.noAttr) ++ [policyOf t]) =
      some ((List.replicate (T + 1) (none : Option Nat)).set T (some 20)) ∧
    nl_attr_get_uX k (nl_msg_put_unspec pre T (leBytes k v)) 20 = v % 256 ^ k := by
  obtain ⟨hf1, hf2, hf3, hf4⟩ := attr_fields pre T k v hk8 hT
  rw [hpre] at hf1 hf2 hf3 hf4
  have halignsum : nlaAlign (4 + k) = nlaAlign k + 4 := by unfold nlaAlign; omega
  have halignge : 4 + k ≤ nlaAlign (4 + k) := le_nlaAlign (4 + k)
  constructor
  · unfold nl_policy_parse
    rw [if_pos (by simp only [NLMSG_HDRLEN, GENL_HDRLEN]; omega)]
    have hplen : (List.replicate T (policyOf NlAttrType.noAttr) ++
        [policyOf t]).length = T + 1 := by simp
    have hcount : (List.replicate T (policyOf NlAttrType.noAttr) ++
        [policyOf t]).countP polRequired = 1 := by
      rw [List.countP_append, List.countP_replicate]
      have h0 : polRequired (policyOf NlAttrType.noAttr) = false := by decide
      have h1 : polRequired (policyOf t) = true := by
        simp [polRequired, policyOf, hnoattr, hflag]
      rw [h0]
      simp [List.countP_cons, h1]
    rw [hplen, hcount, hf4]
    rw [show NLMSG_HDRLEN + GENL_HDRLEN = 20 from rfl]
    rw [show 20 + nlaAlign (4 + k) = (19 + nlaAlign (4 + k)) + 1 from by omega]
    rw [parseAttrsLoop_step_store _ _ _ _ _ _ T k t
      (by omega : (20 : Nat) < (nl_msg_put_unspec pre T (leBytes k v)).length) hf1 hf2
      (by omega)
      (by simp)
      (getD_replicate_append _ _ _ T)
      hnoattr hstr
      (by simp [lenOutOfRange, polMinLen, polMaxLen, policyOf, hmin, hmax])]
    rw [getD_replicate, if_pos rfl]
    rw [show 19 + nlaAlign (4 + k) = (18 + nlaAlign (4 + k)) + 1 from by omega]
    rw [parseAttrsLoop_done _ _ _ _ _ (by omega)]
  · unfold nl_attr_get_uX
    simp only [NLA_HDRLEN]
    exact hf3

theorem genlmsghdr_length (family flags seq pid cmd version : Nat) :
    (nl_msg_put_genlmsghdr family flags seq pid cmd version).length = 20 := by
  unfold nl_msg_put_genlmsghdr nl_msg_put_nlmsghdr
  rw [nl_msg_put_length, nl_msg_put_length]
  simp [nlmsghdrBytes, leBytes_length, nlaAlign, List.length_append]

/-- Claim C6: for each X in 8, 16, 32, 64, building a Generic Netlink
message whose headers are followed by nl_msg_put_uX of type T and value v
and parsing it under a policy mapping T to the uX kind succeeds, storing
the attribute at offset 20, and nl_attr_get_uX reads back exactly v. -/
theorem put_parse_roundtrip_uX (family flags seq pid cmd version T v : Nat)
    (hT : T < 65536) :
    (v < 2 ^ 8 →
      nl_policy_parse
          (nl_msg_put_u8 (nl_msg_put_genlmsghdr family flags seq pid cmd version) T v)
          (List.replicate T (policyOf NlAttrType.noAttr) ++ [policyOf NlAttrType.u8]) =
        some ((List.replicate (T + 1) (none : Option Nat)).set T (some 20)) ∧
      nl_attr_get_uX 1
          (nl_msg_put_u8 (nl_msg_put_genlmsghdr family flags seq pid cmd version) T v)
          20 = v) ∧
    (v < 2 ^ 16 →
      nl_policy_parse
          (nl_msg_put_u16 (nl_msg_put_genlmsghdr family flags seq pid cmd version) T v)
          (List.replicate T (policyOf NlAttrType.noAttr) ++ [policyOf NlAttrType.u16]) =
        some ((List.replicate (T + 1) (none : Option Nat)).set T (some 20)) ∧
      nl_attr_get_uX 2
          (nl_msg_put_u16 (nl_msg_put_genlmsghdr family flags seq pid cmd version) T v)
          20 = v) ∧
    (v < 2 ^ 32 →
      nl_policy_parse
          (nl_msg_put_u32 (nl_msg_put_genlmsghdr family flags seq pid cmd version) T v)
          (List.replicate T (policyOf NlAttrType.noAttr) ++ [policyOf NlAttrType.u32]) =
        some ((List.replicate (T + 1) (none : Option Nat)).set T (some 20)) ∧
      nl_attr_get_uX 4
          (nl_msg_put_u32 (nl_msg_put_genlmsghdr family flags seq pid cmd version) T v)
          20 = v) ∧
    (v < 2 ^ 64 →
      nl_policy_parse
          (nl_msg_put_u64 (nl_msg_put_genlmsghdr family flags seq pid cmd version) T v)
          (List.replicate T (policyOf NlAttrType.noAttr) ++ [policyOf NlAttrType.u64]) =
        some ((List.replicate (T + 1) (none : Option Nat)).set T (some 20)) ∧
      nl_attr_get_uX 8
          (nl_msg_put_u64 (nl_msg_put_genlmsghdr family flags seq pid cmd version) T v)
          20 = v) := by
  have hpre : (nl_msg_put_genlmsghdr family flags seq pid cmd version).length = 20 :=
    genlmsghdr_length family flags seq pid cmd version
  refine ⟨?_, ?_, ?_, ?_⟩
  · intro hv
    have h := parse_single_attr (nl_msg_put_genlmsghdr family flags seq pid cmd version)
      NlAttrType.u8 T 1 v hpre hT (by omega) (by omega) rfl rfl
      (by decide) (by decide) (by decide)
    rw [nl_msg_put_u8]
    rw [show (256 : Nat) ^ 1 = 2 ^ 8 from by norm_num] at h
    rw [Nat.mod_eq_of_lt hv] at h
    exact h
  · intro hv
    have h := parse_single_attr (nl_msg_put_genlmsghdr family flags seq pid cmd version)
      NlAttrType.u16 T 2 v hpre hT (by omega) (by omega) rfl rfl
      (by decide) (by decide) (by decide)
    rw [nl_msg_put_u16]
    rw [show (256 : Nat) ^ 2 = 2 ^ 16 from by norm_num] at h
    rw [Nat.mod_eq_of_lt hv] at h
    exact h
  · intro hv
    have h := parse_single_attr (nl_msg_put_genlmsghdr family flags seq pid cmd version)
      NlAttrType.u32 T 4 v hpre hT (by omega) (by omega) rfl rfl
      (by decide) (by decide) (by decide)
    rw [nl_msg_put_u32]
    rw [show (256 : Nat) ^ 4 = 2 ^ 32 from by norm_num] at h
    rw [Nat.mod_eq_of_lt hv] at h
    exact h
  · intro hv
    have h := parse_single_attr (nl_msg_put_genlmsghdr family flags seq pid cmd version)
      NlAttrType.u64 T 8 v hpre hT (by omega) (by omega) rfl rfl
      (by decide) (by decide) (by decide)
    rw [nl_msg_put_u64]
    rw [show (256 : Nat) ^ 8 = 2 ^ 64 from by norm_num] at h
    rw [Nat.mod_eq_of_lt hv] at h
    exact h

/-- Witness for the claim C6 theorem at type 2 and value 7 over the u8
width. -/
theorem put_parse_roundtrip_uX_witness :
    (2 : Nat) < 65536 ∧ (7 : Nat) < 2 ^ 8 ∧
    (nl_policy_parse (nl_msg_put_u8 (nl_msg_put_genlmsghdr 16 1 42 9 3 1) 2 7)
        (List.replicate 2 (policyOf NlAttrType.noAttr) ++ [policyOf NlAttrType.u8]) =
      some ((List.replicate 3 (none : Option Nat)).set 2 (some 20)) ∧
     nl_attr_get_uX 1 (nl_msg_put_u8 (nl_msg_put_genlmsghdr 16 1 42 9 3 1) 2 7) 20 = 7) :=
  ⟨by decide, by decide,
   (put_parse_roundtrip_uX 16 1 42 9 3 1 2 7 (by decide)).1 (by decide)⟩

/-- Claim C4 counterexample: a message holding two u32 attributes of the
same type 0 with values 1 (at offset 20, the first occurrence) and 2 (at
offset 28).  The parse succeeds and attrs[0] holds offset 28, the last
occurrence, not offset 20 as the claim states. -/
theorem parse_duplicate_type_counterexample :
    nl_policy_parse
        (List.replicate 20 0 ++ [8, 0, 0, 0, 1, 0, 0, 0, 8, 0, 0, 0, 2, 0, 0, 0])
        [policyOf NlAttrType.u32] = some [some 28] ∧
    readLe (List.replicate 20 0 ++ [8, 0, 0, 0, 1, 0, 0, 0, 8, 0, 0, 0, 2, 0, 0, 0])
      22 2 = 0 ∧
    readLe (List.replicate 20 0 ++ [8, 0, 0, 0, 1, 0, 0, 0, 8, 0, 0, 0, 2, 0, 0, 0])
      30 2 = 0 ∧
    nl_attr_get_uX 4
      (List.replicate 20 0 ++ [8, 0, 0, 0, 1, 0, 0, 0, 8, 0, 0, 0, 2, 0, 0, 0]) 20 = 1 ∧
    nl_attr_get_uX 4
      (List.replicate 20 0 ++ [8, 0, 0, 0, 1, 0, 0, 0, 8, 0, 0, 0, 2, 0, 0, 0]) 28 = 2 ∧
    some (28 : Nat) ≠ some (20 : Nat) := by
  decide

/-- Claim C4 as amended: when the attribute stream contains two or more
attributes with the same type id that has a policy entry, the pointer
stored into attrs[type] after a successful parse is the one to the last
occurrence in the stream (each occurrence overwrites the slot).  Proved
for a stream of two u32 attributes of the same arbitrary type with
arbitrary values: the stored offset is 28, the second occurrence. -/
theorem parse_duplicate_type_last_wins (family flags seq pid cmd version T v1 v2 : Nat)
    (hT : T < 65536) :
    nl_policy_parse
        (nl_msg_put_u32
          (nl_msg_put_u32 (nl_msg_put_genlmsghdr family flags seq pid cmd version) T v1)
          T v2)
        (List.replicate T (policyOf NlAttrType.noAttr) ++ [policyOf NlAttrType.u32]) =
      some (((List.replicate (T + 1) (none : Option Nat)).set T (some 20)).set T
        (some 28)) ∧
    (((List.replicate (T + 1) (none : Option Nat)).set T (some 20)).set T
        (some 28)).getD T none = some 28 ∧
    nl_attr_get_uX 4
        (nl_msg_put_u32
          (nl_msg_put_u32 (nl_msg_put_genlmsghdr family flags seq pid cmd version) T v1)
          T v2)
        28 = v2 % 2 ^ 32 := by
  have hpre : (nl_msg_put_genlmsghdr family flags seq pid cmd version).length = 20 :=
    genlmsghdr_length family flags seq pid cmd version
  rw [nl_msg_put_u32, nl_msg_put_u32]
  have ha8 : nlaAlign (4 + 4) = 8 := by decide
  obtain ⟨hA1, hA2, hA3, hA4⟩ := attr_fields
    (nl_msg_put_genlmsghdr family flags seq pid cmd version) T 4 v1 (by omega) hT
  rw [hpre] at hA1 hA2 hA3 hA4
  rw [ha8] at hA4
  obtain ⟨hB1, hB2, hB3, hB4⟩ := attr_fields
    (nl_msg_put_unspec (nl_msg_put_genlmsghdr family flags seq pid cmd version) T
      (leBytes 4 v1)) T 4 v2 (by omega) hT
  rw [hA4] at hB1 hB2 hB3 hB4
  rw [ha8] at hB4
  have hdec := nl_msg_put_unspec_eq
    (nl_msg_put_unspec (nl_msg_put_genlmsghdr family flags seq pid cmd version) T
      (leBytes 4 v1)) T (leBytes 4 v2)
  have hC1 : readLe (nl_msg_put_unspec
      (nl_msg_put_unspec (nl_msg_put_genlmsghdr family flags seq pid cmd version) T
        (leBytes 4 v1)) T (leBytes 4 v2)) 20 2 = 4 + 4 := by
    rw [hdec, readLe_append_left _ _ _ _ (by omega)]
    exact hA1
  have hC2 : readLe (nl_msg_put_unspec
      (nl_msg_put_unspec (nl_msg_put_genlmsghdr family flags seq pid cmd version) T
        (leBytes 4 v1)) T (leBytes 4 v2)) (20 + 2) 2 = T := by
    rw [hdec, readLe_append_left _ _ _ _ (by omega)]
    exact hA2
  constructor
  · unfold nl_policy_parse
    rw [if_pos (by simp only [NLMSG_HDRLEN, GENL_HDRLEN]; omega)]
    have hplen : (List.replicate T (policyOf NlAttrType.noAttr) ++
        [policyOf NlAttrType.u32]).length = T + 1 := by simp
    have hcount : (List.replicate T (policyOf NlAttrType.noAttr) ++
        [policyOf NlAttrType.u32]).countP polRequired = 1 := by
      rw [List.countP_append, List.countP_replicate]
      have h0 : polRequired (policyOf NlAttrType.noAttr) = false := by decide
      rw [h0]
      simp [List.countP_cons, show polRequired (policyOf NlAttrType.u32) = true from
        by decide]
    rw [hplen, hcount, hB4]
    rw [show NLMSG_HDRLEN + GENL_HDRLEN = 20 from rfl]
    rw [show (20 : Nat) + 8 + 8 = 35 + 1 from rfl]
    rw [parseAttrsLoop_step_store _ _ _ _ _ _ T 4 NlAttrType.u32
      (by omega) hC1 hC2 (by rw [hB4]; decide)
      (by simp)
      (getD_replicate_append _ _ _ T)
      (by decide) (by decide) (by decide)]
    rw [getD_replicate, if_pos rfl, ha8]
    rw [show (35 : Nat) = 34 + 1 from rfl]
    rw [parseAttrsLoop_step_store _ _ _ _ _ _ T 4 NlAttrType.u32
      (by omega) hB1 hB2 (by rw [hB4]; decide)
      (by simp)
      (getD_replicate_append _ _ _ T)
      (by decide) (by decide) (by decide)]
    have hgd20 : ((List.replicate (T + 1) (none : Option Nat)).set T
        (some 20)).getD T none = some 20 := by
      rw [List.getD_eq_getElem?_getD, List.getElem?_set_self (by simp)]
      rfl
    rw [hgd20]
    rw [if_neg (by simp), ha8]
    rw [show (34 : Nat) = 33 + 1 from rfl]
    rw [parseAttrsLoop_done _ _ _ _ _ (by rw [hB4]; omega)]
  constructor
  · rw [List.getD_eq_getElem?_getD, List.getElem?_set_self (by simp)]
    rfl
  · unfold nl_attr_get_uX
    simp only [NLA_HDRLEN]
    rw [show (256 : Nat) ^ 4 = 2 ^ 32 from by norm_num] at hB3
    rw [show (28 : Nat) + 4 = 20 + 8 + 4 from rfl]
    exact hB3

/-- Witness for the amended claim C4 theorem at type 0 and values 1, 2. -/
theorem parse_duplicate_type_last_wins_witness :
    (0 : Nat) < 65536 ∧
    nl_policy_parse
        (nl_msg_put_u32 (nl_msg_put_u32 (nl_msg_put_genlmsghdr 16 1 42 9 3 1) 0 1) 0 2)
        (List.replicate 0 (policyOf NlAttrType.noAttr) ++ [policyOf NlAttrType.u32]) =
      some (((List.replicate 1 (none : Option Nat)).set 0 (some 20)).set 0 (some 28)) :=
  ⟨by decide,
   (parse_duplicate_type_last_wins 16 1 42 9 3 1 0 1 2 (by decide)).1⟩

/-- Fuel irrelevance of the parse walk: any fuel strictly above the
remaining byte count gives the same result, so the fuel of msg.length used
by nl_policy_parse behaves as the unbounded loop of the source.  Every
continuing iteration advances p by at least NLA_HDRLEN. -/
theorem parseAttrsLoop_fuel (msg : List Nat) (policy : List NlPolicy) :
    ∀ fuel1 fuel2 p attrs nreq, msg.length - p < fuel1 → msg.length - p < fuel2 →
      parseAttrsLoop msg policy fuel1 p attrs nreq =
        parseAttrsLoop msg policy fuel2 p attrs nreq := by
  intro fuel1
  induction fuel1 with
  | zero => intro fuel2 p attrs nreq h1 _; omega
  | succ f1 ih =>
    intro fuel2 p attrs nreq h1 h2
    cases fuel2 with
    | zero => omega
    | succ f2 =>
      rw [parseAttrsLoop, parseAttrsLoop]
      split_ifs with hp hshort halign hty hno hrange hstr <;>
        first
          | rfl
          | (apply ih <;>
              (have hub := le_nlaAlign (readLe msg p 2)
               simp only [NLA_HDRLEN] at hshort
               omega))

end OpenFlow
